import Mathlib

/-!
Verification development for the Bynder proxy's paginated-fetch-and-flatten
pipeline.  The definitions below are shallow embeddings of the JavaScript
functions in `src/controllers/mediaController.js` and
`src/controllers/metapropertyController.js`:

* `getAllMediaItems` / `getAllMediaItemsCalls` embed the pagination loop of
  `getAllMediaItems` (second revision of `mediaController.js`), including the
  `{...query, ...queryParams}` object-spread merge of filter parameters over
  the pagination parameters, and the propagation of upstream errors through
  the outer try/catch (`throw error`).
* `fetchMediaFromBynder` / `fetchMediaCalls` embed the pagination loop of
  `fetchMediaFromBynder` (first revision), including the
  `parseInt(queryParams.limit) || 100` default, the whitelist filter
  construction, the per-page try/catch that swallows upstream failures, and
  the `total` flag that is `1` only for the first request.
* `formatFileSize`, `slugifyDomain` embed the utility functions of the same
  names.
* `createXLSXFile` embeds the tabular flattener, and `createMetaPropertiesXLSX`
  embeds the fixed-schema metaproperty flattener of
  `metapropertyController.js`.

JavaScript numbers are modelled as `Int`/`Nat` (the code only manipulates
integral counts); `null`/`undefined`/NaN inputs are modelled with `Option`;
an upstream call that may throw is modelled as `Except`.
-/

/-- A JavaScript query-parameter value: number, string or boolean. -/
inductive QVal where
  | num : Int → QVal
  | str : String → QVal
  | bool : Bool → QVal
deriving DecidableEq, Repr

/-- JS object property lookup on an association list (first binding wins,
which matches JS objects because keys are unique there). -/
def lookupQ (q : List (String × QVal)) (k : String) : Option QVal :=
  (q.find? (fun kv => kv.1 == k)).map (·.2)

/-- `q` has no binding for key `k`. -/
def noKey (q : List (String × QVal)) (k : String) : Prop :=
  ∀ kv ∈ q, kv.1 ≠ k

/-- The pagination part of the query built by `getAllMediaItems`:
`{ page, limit: Math.min(pageSize, limit - allMedia.length), total: 0 }`. -/
def baseQuery (page : Nat) (size : Int) : List (String × QVal) :=
  [("page", QVal.num page), ("limit", QVal.num size), ("total", QVal.num 0)]

/-- The JS object spread `{...q, ...ps}`: the keys of `q` in order, with the
value taken from `ps` when `ps` also binds the key, followed by the keys of
`ps` that `q` does not bind, in order.  Note that a colliding key keeps the
value from `ps` (the second spread wins). -/
def mergeParams (q ps : List (String × QVal)) : List (String × QVal) :=
  q.map (fun kv => (kv.1, (lookupQ ps kv.1).getD kv.2)) ++
    ps.filter (fun kv => !(q.any (fun kv0 => kv0.1 == kv.1)))

/-- The page number an upstream collaborator reads from a request: the value
of the `page` key when it is a number (`0` for the shapes the loop never
produces on its own). -/
def pageNat (q : List (String × QVal)) : Nat :=
  match lookupQ q "page" with
  | some (QVal.num n) => n.toNat
  | _ => 0

/-- The `while (hasMoreItems && allMedia.length < limit)` loop of
`getAllMediaItems`, instrumented with the number of upstream calls
(second component).  Each iteration re-creates the query, merges the caller's
filter parameters over it, and calls the upstream paged-list capability;
an empty page ends the loop, a thrown error is caught by the outer
try/catch and re-thrown (`.error`), a non-empty page is appended.
`pageSize = 100` is the fixed upstream maximum. -/
def getAllLoopAux {ε α : Type} (fetch : List (String × QVal) → Except ε (List α))
    (limit : Int) (queryParams : List (String × QVal)) (acc : List α) (page : Nat) :
    Except ε (List α) × Nat :=
  if h : (acc.length : Int) < limit then
    match fetch (mergeParams (baseQuery page (min 100 (limit - (acc.length : Int)))) queryParams) with
    | Except.error e => (Except.error e, 1)
    | Except.ok mediaPage =>
      if hm : mediaPage.isEmpty then (Except.ok acc, 1)
      else
        let r := getAllLoopAux fetch limit queryParams (acc ++ mediaPage) (page + 1)
        (r.1, r.2 + 1)
  else (Except.ok acc, 0)
termination_by (limit - (acc.length : Int)).toNat
decreasing_by
  have h1 : 0 < mediaPage.length := by
    cases mediaPage with
    | nil => simp at hm
    | cons x xs => simp
  simp only [List.length_append]
  omega

/-- `getAllMediaItems(bynder, limit, queryParams)`: run the pagination loop
from an empty accumulator at page 1. -/
def getAllMediaItems {ε α : Type} (fetch : List (String × QVal) → Except ε (List α))
    (limit : Int) (queryParams : List (String × QVal)) : Except ε (List α) :=
  (getAllLoopAux fetch limit queryParams [] 1).1

/-- Number of upstream calls issued by `getAllMediaItems`. -/
def getAllMediaItemsCalls {ε α : Type} (fetch : List (String × QVal) → Except ε (List α))
    (limit : Int) (queryParams : List (String × QVal)) : Nat :=
  (getAllLoopAux fetch limit queryParams [] 1).2

/-- The query object `fetchMediaFromBynder` sends upstream.  Its filter keys
are whitelisted (`type`, `limited`, `orientation`, `orderBy`), so unlike
`getAllMediaItems` no filter can collide with a pagination key. -/
structure FQuery where
  page : Nat
  limit : Int
  total : Nat
  type : Option String
  limited : Option String
  orientation : Option String
  orderBy : Option String
deriving DecidableEq, Repr

/-- The caller-supplied query parameters of `fetchMediaFromBynder`.
`limit` is the result of `parseInt` (`none` for missing/NaN). -/
structure MediaQueryParams where
  limit : Option Int
  type : Option String
  limited : Option String
  orientation : Option String
  orderBy : Option String
deriving DecidableEq, Repr

/-- `const limit = parseInt(queryParams.limit) || 100`: a missing/NaN limit
and the falsy value `0` both fall back to the default `100`. -/
def effectiveLimit (qp : MediaQueryParams) : Int :=
  match qp.limit with
  | none => 100
  | some n => if n = 0 then 100 else n

/-- The `if (param && param !== undefined && param !== null && param !== '')`
guards: a missing or empty-string filter value is dropped from the query. -/
def keepParam (o : Option String) : Option String :=
  match o with
  | none => none
  | some s => if s = "" then none else some s

/-- The initial `apiQuery` object of `fetchMediaFromBynder`. -/
def initQuery (qp : MediaQueryParams) : FQuery :=
  { page := 1, limit := min 100 (effectiveLimit qp), total := 1,
    type := keepParam qp.type, limited := keepParam qp.limited,
    orientation := keepParam qp.orientation, orderBy := keepParam qp.orderBy }

/-- The pagination loop of `fetchMediaFromBynder`, instrumented with the
number of upstream calls.  Each iteration overwrites `page`, `limit` and
(after the first call) `total` on the query; the per-page try/catch turns an
upstream failure into `hasMoreItems = false`, so the loop returns the partial
accumulator instead of propagating the error. -/
def fetchLoopAux {ε α : Type} (fetch : FQuery → Except ε (List α)) (limit : Int)
    (base : FQuery) (acc : List α) (page : Nat) (total : Nat) : List α × Nat :=
  if h : (acc.length : Int) < limit then
    match fetch { base with page := page, limit := min 100 (limit - (acc.length : Int)), total := total } with
    | Except.error _ => (acc, 1)
    | Except.ok response =>
      if hm : response.isEmpty then (acc, 1)
      else
        let r := fetchLoopAux fetch limit base (acc ++ response) (page + 1) 0
        (r.1, r.2 + 1)
  else (acc, 0)
termination_by (limit - (acc.length : Int)).toNat
decreasing_by
  have h1 : 0 < response.length := by
    cases response with
    | nil => simp at hm
    | cons x xs => simp
  simp only [List.length_append]
  omega

/-- `fetchMediaFromBynder(bynder, queryParams)`: compute the effective limit,
build the whitelisted query and run the loop from page 1 with `total = 1`. -/
def fetchMediaFromBynder {ε α : Type} (fetch : FQuery → Except ε (List α))
    (qp : MediaQueryParams) : List α :=
  (fetchLoopAux fetch (effectiveLimit qp) (initQuery qp) [] 1 1).1

/-- Number of upstream calls issued by `fetchMediaFromBynder`. -/
def fetchMediaCalls {ε α : Type} (fetch : FQuery → Except ε (List α))
    (qp : MediaQueryParams) : Nat :=
  (fetchLoopAux fetch (effectiveLimit qp) (initQuery qp) [] 1 1).2

/-- An upstream whose response depends only on the requested page number,
for `getAllMediaItems` (it reads the page from the merged query object). -/
def fetchByPage {ε α : Type} (F : Nat → Except ε (List α)) :
    List (String × QVal) → Except ε (List α) :=
  fun q => F (pageNat q)

/-- An upstream whose response depends only on the requested page number,
for `fetchMediaFromBynder`. -/
def fetchByPageF {ε α : Type} (F : Nat → Except ε (List α)) :
    FQuery → Except ε (List α) :=
  fun q => F q.page

/-- The list produced by a successful upstream response, `[]` for an error. -/
def okD {ε α : Type} : Except ε (List α) → List α
  | Except.ok l => l
  | Except.error _ => []

/-- Concatenation of the upstream pages `p, p+1, ..., p+j-1`. -/
def joinPagesE {ε α : Type} (F : Nat → Except ε (List α)) (p j : Nat) : List α :=
  ((List.range' p j).map (fun i => okD (F i))).flatten

/-- Render `m`/100 the way `parseFloat(x.toFixed(2))` displays it: at most two
decimals, trailing zeros (and a trailing dot) removed.  `m` is the numerator
of the already-rounded value in hundredths. -/
def decStr (m : Nat) : String :=
  let ip := m / 100
  let fr := m % 100
  if fr = 0 then toString ip
  else if fr % 10 = 0 then toString ip ++ "." ++ toString (fr / 10)
  else if fr < 10 then toString ip ++ ".0" ++ toString fr
  else toString ip ++ "." ++ toString fr

/-- The `sizes` ladder of `formatFileSize`; an index past the end renders the
way JS prints `sizes[i]` when it is `undefined`. -/
def sizeUnit (i : Nat) : String :=
  (["Bytes", "KB", "MB", "GB", "TB"]).getD i "undefined"

/-- Floor logarithm base 1024 with explicit fuel (structural recursion so the
kernel can evaluate it; `fuel = b` always suffices since `b / 1024 < b`). -/
def log1024Aux : Nat → Nat → Nat
  | 0, _ => 0
  | fuel + 1, b => if b < 1024 then 0 else 1 + log1024Aux fuel (b / 1024)

/-- `Math.floor(Math.log(bytes) / Math.log(1024))` for a positive integer:
the floor logarithm base 1024 (exact arithmetic models the JS floating-point
computation). -/
def log1024 (b : Nat) : Nat :=
  log1024Aux b b

/-- Round `p / q` to the nearest integer, halves up — the rounding performed
by `toFixed(2)` (on the value already scaled by 100). -/
def roundDiv (p q : Nat) : Nat :=
  (2 * p + q) / (2 * q)

/-- The positive-byte branch of `formatFileSize`: pick the unit index `i` and
render `bytes / 1024^i` rounded to two decimals. -/
def formatPos (b : Nat) : String :=
  let i := log1024 b
  decStr (roundDiv (b * 100) (1024 ^ i)) ++ " " ++ sizeUnit i

/-- `formatFileSize(bytes)` from `mediaController.js`.  `none` models
`null`/`undefined`/NaN input (the `!bytes || isNaN(bytes)` guard).  Note that
the guard `!bytes` is already true for `bytes === 0`, so the later
`if (bytes === 0) return '0 Bytes'` branch is dead code and `0` yields `""`.
A negative number reaches `Math.log` of a negative value, so every later
step is NaN and the template renders `"NaN undefined"`. -/
def formatFileSize (bytes : Option Int) : String :=
  match bytes with
  | none => ""
  | some n =>
    if n = 0 then ""
    else if n < 0 then "NaN undefined"
    else formatPos n.toNat

/-- Characters replaced by the `[\._\s]+` run-collapsing step of
`slugifyDomain` (`\s` modelled by the ASCII whitespace characters). -/
def isSep (c : Char) : Bool :=
  c == '.' || c == '_' || c == ' ' || c == '\t' || c == '\n' || c == '\r' ||
    c == '\x0b' || c == '\x0c'

/-- Replace each maximal run of separator characters with a single dash
(`domain.replace(/[\._\s]+/g, '-')`).  The flag records whether the previous
character belonged to a separator run. -/
def replaceSepsAux : Bool → List Char → List Char
  | _, [] => []
  | prevSep, c :: rest =>
    if isSep c then
      if prevSep then replaceSepsAux true rest
      else '-' :: replaceSepsAux true rest
    else c :: replaceSepsAux false rest

/-- Characters kept by `domain.replace(/[^a-z0-9-]/gi, '')`. -/
def keepChar (c : Char) : Bool :=
  decide (('a' ≤ c ∧ c ≤ 'z') ∨ ('A' ≤ c ∧ c ≤ 'Z') ∨ ('0' ≤ c ∧ c ≤ '9') ∨ c = '-')

/-- `domain.replace(/^https?:\/\//, '')`. -/
def stripProtocol (cs : List Char) : List Char :=
  if ("https://".data).isPrefixOf cs then cs.drop 8
  else if ("http://".data).isPrefixOf cs then cs.drop 7
  else cs

/-- Drop the last `n` characters. -/
def dropTail (cs : List Char) (n : Nat) : List Char :=
  cs.take (cs.length - n)

/-- `domain.replace(/\.(com|org|net|io|biz|co|dev)$/, '')`: remove one
trailing TLD suffix (the alternatives are mutually exclusive as suffixes). -/
def stripTld (cs : List Char) : List Char :=
  if (".com".data).isSuffixOf cs then dropTail cs 4
  else if (".org".data).isSuffixOf cs then dropTail cs 4
  else if (".net".data).isSuffixOf cs then dropTail cs 4
  else if (".io".data).isSuffixOf cs then dropTail cs 3
  else if (".biz".data).isSuffixOf cs then dropTail cs 4
  else if (".co".data).isSuffixOf cs then dropTail cs 3
  else if (".dev".data).isSuffixOf cs then dropTail cs 4
  else cs

/-- `domain.replace(/^-+|-+$/g, '')`: trim leading and trailing dash runs. -/
def trimDashes (cs : List Char) : List Char :=
  ((cs.dropWhile (· == '-')).reverse.dropWhile (· == '-')).reverse

/-- `slugifyDomain(domainUrl)` from `mediaController.js`.  `none` models a
`null`/`undefined` argument; together with `""` it is falsy and short-circuits
to `"unknown"`. -/
def slugifyDomain (domainUrl : Option String) : String :=
  match domainUrl with
  | none => "unknown"
  | some s =>
    if s = "" then "unknown"
    else
      let cs := stripProtocol s.data
      let cs := cs.takeWhile (fun c => c != '/')
      let cs := stripTld cs
      let cs := replaceSepsAux false cs
      let cs := (cs.filter keepChar).map Char.toLower
      String.mk (trimDashes cs)

/-- A JSON-like value as delivered by the upstream API.  `vNull` models both
`null` and `undefined` (the code always tests them together). -/
inductive Value where
  | vNull : Value
  | vBool : Bool → Value
  | vNum : Int → Value
  | vStr : String → Value
  | vArr : List Value → Value
  | vObj : List (String × Value) → Value
deriving Repr

/-- JS `String(v)` coercion, also used by `Array.prototype.join`:
when `inJoin` is true the value is an array element being joined, where
`null`/`undefined` render as the empty string instead of `"null"`. -/
def jsToStr : Bool → Value → String
  | inJoin, Value.vNull => if inJoin then "" else "null"
  | _, Value.vBool b => if b then "true" else "false"
  | _, Value.vNum n => toString n
  | _, Value.vStr s => s
  | _, Value.vArr xs =>
    String.intercalate "," (xs.attach.map (fun x => jsToStr true x.1))
  | _, Value.vObj _ => "[object Object]"
termination_by _ v => sizeOf v
decreasing_by
  have := List.sizeOf_lt_of_mem x.2
  simp only [Value.vArr.sizeOf_spec]
  omega

/-- `value.join(', ')` for the metaproperty/tags branches. -/
def joinComma (xs : List Value) : String :=
  String.intercalate ", " (xs.map (jsToStr true))

/-- One character of `JSON.stringify`'s string escaping (quote, backslash and
the common control characters; other characters print as themselves). -/
def escapeChar (c : Char) : String :=
  if c = '"' then "\\\""
  else if c = '\\' then "\\\\"
  else if c = '\n' then "\\n"
  else if c = '\t' then "\\t"
  else if c = '\r' then "\\r"
  else String.mk [c]

/-- `JSON.stringify` string escaping. -/
def escapeJson (s : String) : String :=
  String.join (s.data.map escapeChar)

/-- `JSON.stringify(v)` (compact form, no spaces). -/
def jsonStringify : Value → String
  | Value.vNull => "null"
  | Value.vBool b => if b then "true" else "false"
  | Value.vNum n => toString n
  | Value.vStr s => "\"" ++ escapeJson s ++ "\""
  | Value.vArr xs =>
    "[" ++ String.intercalate "," (xs.attach.map (fun x => jsonStringify x.1)) ++ "]"
  | Value.vObj kvs =>
    "\x7b" ++
      String.intercalate ","
        (kvs.attach.map (fun kv =>
          "\"" ++ escapeJson kv.1.1 ++ "\":" ++ jsonStringify kv.1.2)) ++
      "\x7d"
termination_by v => sizeOf v
decreasing_by
  · have := List.sizeOf_lt_of_mem x.2
    simp only [Value.vArr.sizeOf_spec]
    omega
  · have := List.sizeOf_lt_of_mem kv.2
    obtain ⟨⟨k, v⟩, hk⟩ := kv
    simp_all
    omega

/-- `key.startsWith('property_')`. -/
def startsWithProperty (k : String) : Bool :=
  ("property_".data).isPrefixOf k.data

/-- `formatFileSize` applied to a raw JSON value (the `fileSize` column).
Numbers go through the formatter; `true` coerces to `1` and all other falsy
or non-numeric shapes are modelled by the empty string (upstream `fileSize`
is always a number, so the JS string/array coercion corners do not arise). -/
def formatFileSizeVal : Value → String
  | Value.vNum n => formatFileSize (some n)
  | Value.vBool b => if b then formatFileSize (some 1) else ""
  | _ => ""

/-- Flattening of one field of a media record into worksheet cells, following
the branch cascade of `createXLSXFile`:
null/undefined, `property_*`, `fileSize`, `tags` arrays, `thumbnails`
(`typeof value === 'object'` also holds for arrays, whose `Object.keys` are
the indices), other non-array objects (one level of `<key>_<subKey>`
expansion, arrays joined, deeper objects stringified), other arrays, then
plain scalars.  Cells hold their JS display string. -/
def flattenField (key : String) (v : Value) : List (String × String) :=
  match v with
  | Value.vNull => [(key, "")]
  | _ =>
    if startsWithProperty key then
      match v with
      | Value.vArr xs => [(key, joinComma xs)]
      | Value.vObj _ => [(key, jsonStringify v)]
      | _ => [(key, jsToStr false v)]
    else if key = "fileSize" then
      [(key, formatFileSizeVal v)]
    else
      match v with
      | Value.vArr xs =>
        if key = "tags" then [(key, joinComma xs)]
        else if key = "thumbnails" then
          xs.enum.map (fun p => (key ++ "_" ++ toString p.1, jsToStr false p.2))
        else [(key, joinComma xs)]
      | Value.vObj kvs =>
        if key = "thumbnails" then
          kvs.map (fun kv => (key ++ "_" ++ kv.1, jsToStr false kv.2))
        else
          kvs.map (fun kv =>
            match kv.2 with
            | Value.vArr ys => (key ++ "_" ++ kv.1, joinComma ys)
            | Value.vObj _ => (key ++ "_" ++ kv.1, jsonStringify kv.2)
            | sub => (key ++ "_" ++ kv.1, jsToStr false sub))
      | _ => [(key, jsToStr false v)]

/-- JS object assignment `row[k] = v`: overwrite in place when the key exists,
otherwise append (insertion order preserved). -/
def objInsert (row : List (String × String)) (k v : String) : List (String × String) :=
  if row.any (fun kv => kv.1 == k) then
    row.map (fun kv => if kv.1 == k then (k, v) else kv)
  else row ++ [(k, v)]

/-- The `rowData` object built for one media record: every field is flattened
and its cells assigned in order. -/
def flattenRecord (item : List (String × Value)) : List (String × String) :=
  item.foldl
    (fun row kv => (flattenField kv.1 kv.2).foldl (fun r p => objInsert r p.1 p.2) row)
    []

/-- Insert the keys of one row into the running column list, keeping
first-seen order.  Modelled from the spec: this is the header discovery of
the external table-serialization collaborator (`XLSX.utils.json_to_sheet`),
whose column set the spec defines as the union of row keys in first-seen
order. -/
def insCols (cols : List String) (row : List (String × String)) : List String :=
  row.foldl (fun cs p => if p.1 ∈ cs then cs else cs ++ [p.1]) cols

/-- The ordered column list of a flattened table. -/
def columnsOf (rows : List (List (String × String))) : List String :=
  rows.foldl insCols []

/-- `createXLSXFile(mediaItems, _)`: the table handed to the spreadsheet
collaborator — the ordered column list and one flattened row per record. -/
def createXLSXFile (mediaItems : List (List (String × Value))) :
    List String × List (List (String × String)) :=
  let rows := mediaItems.map flattenRecord
  (columnsOf rows, rows)

/-- One option of a metaproperty as delivered by `getMetaproperties`.
`""` for `id`/`label` and `0` for the numeric fields model absent or
otherwise falsy JS values (`x || fallback` treats them alike). -/
structure MetaOption where
  id : String
  label : String
  zindex : Int
  count : Int
deriving DecidableEq, Repr

/-- One metaproperty as delivered by `getMetaproperties`.  `countTotal`
models `count?.total` with `0` for a missing `count` object (both render as
`''` through `|| ''`).  `options` holds the entries of the `options` object
in key order (a missing `options` object is the empty list — both skip the
option loop). -/
structure Metaprop where
  id : String
  name : String
  label : String
  type : String
  isMultiselect : Bool
  isRequired : Bool
  isFilterable : Bool
  zindex : Int
  countTotal : Int
  options : List (String × MetaOption)
deriving DecidableEq, Repr

/-- One row of the `Metaproperties` sheet. -/
structure MetaRow where
  id : String
  name : String
  label : String
  type : String
  isMultiselect : String
  isRequired : String
  isFilterable : String
  zindex : String
  totalCount : String
deriving DecidableEq, Repr

/-- One row of the `Metaproperty Options` sheet. -/
structure OptionRow where
  id : String
  label : String
  zindex : String
  count : String
  metapropertyName : String
  metapropertyId : String
deriving DecidableEq, Repr

/-- JS `s || dflt` for strings (empty string is falsy). -/
def strOr (s dflt : String) : String :=
  if s = "" then dflt else s

/-- JS `n || ''` for numbers rendered into a cell (`0` is falsy). -/
def numOr (n : Int) : String :=
  if n = 0 then "" else toString n

/-- The `Metaproperties` sheet row pushed for entry `key` of the
metaproperties object. -/
def metaRowOf (key : String) (p : Metaprop) : MetaRow :=
  { id := strOr p.id key
    name := strOr p.name key
    label := strOr p.label (strOr p.name key)
    type := p.type
    isMultiselect := if p.isMultiselect then "Yes" else "No"
    isRequired := if p.isRequired then "Yes" else "No"
    isFilterable := if p.isFilterable then "Yes" else "No"
    zindex := numOr p.zindex
    totalCount := numOr p.countTotal }

/-- The `Metaproperty Options` sheet row pushed for option entry `okey` of
the metaproperty at entry `pkey`; the last two columns denormalize the
owning metaproperty's name and id. -/
def optionRowOf (pkey : String) (p : Metaprop) (okey : String) (o : MetaOption) : OptionRow :=
  { id := strOr o.id okey
    label := strOr o.label okey
    zindex := numOr o.zindex
    count := numOr o.count
    metapropertyName := strOr p.name pkey
    metapropertyId := strOr p.id pkey }

/-- `createMetaPropertiesXLSX(metaproperties, _)` from
`metapropertyController.js`: the two sheets handed to the spreadsheet
collaborator — one row per metaproperty and one row per option. -/
def createMetaPropertiesXLSX (mps : List (String × Metaprop)) :
    List MetaRow × List OptionRow :=
  (mps.map (fun kp => metaRowOf kp.1 kp.2),
   mps.flatMap (fun kp => kp.2.options.map (fun ko => optionRowOf kp.1 kp.2 ko.1 ko.2)))

/-- The `ID` cell a metaproperty entry produces (`property.id || key`). -/
def derivedId (kp : String × Metaprop) : String :=
  strOr kp.2.id kp.1

/-! ### Helper lemmas about query lookup and the object-spread merge -/

theorem lookupQ_eq_none_of_noKey (q : List (String × QVal)) (k : String)
    (h : noKey q k) : lookupQ q k = none := by
  have hf : q.find? (fun kv => kv.1 == k) = none := by
    rw [List.find?_eq_none]
    intro x hx
    simpa using h x hx
  simp [lookupQ, hf]

theorem find?_filter_of_imp {α : Type} (p g : α → Bool) :
    ∀ (l : List α), (∀ x, p x = true → g x = true) →
      (l.filter g).find? p = l.find? p := by
  intro l
  induction l with
  | nil => simp
  | cons x rest ih =>
    intro hcomp
    by_cases hg : g x = true
    · by_cases hp : p x = true
      · simp [List.filter, hg, List.find?, hp]
      · simp [List.filter, hg, List.find?, hp, ih hcomp]
    · have hp : p x = false := by
        by_contra hc
        exact hg (hcomp x (by simpa using hc))
      simp [List.filter, hg, List.find?, hp, ih hcomp]

theorem lookupQ_append (a b : List (String × QVal)) (k : String) :
    lookupQ (a ++ b) k = (lookupQ a k).or (lookupQ b k) := by
  simp only [lookupQ, List.find?_append]
  cases a.find? (fun kv => kv.1 == k) <;> simp

theorem lookupQ_map_keyfix (q : List (String × QVal)) (f : String × QVal → QVal)
    (k : String) :
    lookupQ (q.map (fun kv => (kv.1, f kv))) k
      = (q.find? (fun kv => kv.1 == k)).map f := by
  simp only [lookupQ, List.find?_map]
  have hcomp : ((fun kv : String × QVal => kv.1 == k) ∘ (fun kv : String × QVal => (kv.1, f kv)))
      = (fun kv : String × QVal => kv.1 == k) := rfl
  rw [hcomp]
  cases q.find? (fun kv : String × QVal => kv.1 == k) <;> simp

theorem lookupQ_mergeParams_of_isSome (q ps : List (String × QVal)) (k : String)
    (h : (lookupQ ps k).isSome) :
    lookupQ (mergeParams q ps) k = lookupQ ps k := by
  rw [mergeParams, lookupQ_append, lookupQ_map_keyfix]
  cases hq : q.find? (fun kv => kv.1 == k) with
  | some kv0 =>
    have hk : kv0.1 = k := by simpa using List.find?_some hq
    obtain ⟨v, hv⟩ := Option.isSome_iff_exists.mp h
    simp [hk, hv]
  | none =>
    have hnk : ∀ kv ∈ q, ¬(kv.1 == k) = true := List.find?_eq_none.mp hq
    have hfilter : (ps.filter (fun kv => !(q.any (fun kv0 => kv0.1 == kv.1)))).find?
        (fun kv => kv.1 == k) = ps.find? (fun kv => kv.1 == k) := by
      apply find?_filter_of_imp
      intro x hx
      have hxk : x.1 = k := by simpa using hx
      simp only [Bool.not_eq_true', List.any_eq_false]
      intro kv0 hkv0
      have := hnk kv0 hkv0
      simp_all
    simp [lookupQ, hfilter]

theorem pageNat_merge (p : Nat) (s : Int) (qp : List (String × QVal))
    (hp : noKey qp "page") :
    pageNat (mergeParams (baseQuery p s) qp) = p := by
  have h := lookupQ_eq_none_of_noKey qp "page" hp
  have hl : lookupQ (mergeParams (baseQuery p s) qp) "page" = some (QVal.num p) := by
    rw [mergeParams, lookupQ_append, lookupQ_map_keyfix]
    simp [baseQuery, List.find?, h]
  simp [pageNat, hl]

theorem lookupQ_merge_limit (p : Nat) (s : Int) (qp : List (String × QVal))
    (hl : noKey qp "limit") :
    lookupQ (mergeParams (baseQuery p s) qp) "limit" = some (QVal.num s) := by
  have h := lookupQ_eq_none_of_noKey qp "limit" hl
  rw [mergeParams, lookupQ_append, lookupQ_map_keyfix]
  simp [baseQuery, List.find?, h]

/-! ### C4 — colliding filter keys versus pagination parameters -/

/-- C4, counterexample: run `getAllMediaItems` with an upstream that echoes
the query it receives, a limit of `1` and the filter mapping
`{ page: "7" }`.  The query that reaches the upstream carries the filter's
value `"7"` for `page`, not the pagination loop's page number `1`: the
object spread `{...query, ...queryParams}` lets the filter mapping override
the pagination parameters, the opposite of the claimed direction. -/
theorem getAllMediaItems_filter_overrides_page :
    getAllMediaItems (ε := Unit) (fun q => Except.ok [q]) 1 [("page", QVal.str "7")]
        = Except.ok [[("page", QVal.str "7"), ("limit", QVal.num 1), ("total", QVal.num 0)]]
      ∧ lookupQ [("page", QVal.str "7"), ("limit", QVal.num 1), ("total", QVal.num 0)] "page"
        = some (QVal.str "7")
      ∧ QVal.str "7" ≠ QVal.num 1 := by
  refine ⟨?_, by decide, by decide⟩
  simp [getAllMediaItems, getAllLoopAux, mergeParams, baseQuery, lookupQ, List.find?]

/-- C4, as amended: when a filter mapping binds a reserved pagination key
(`page`, `limit` or `total`), the merged request sent upstream carries the
*filter's* value for that key — the pagination parameter is the one that is
silently overridden (`{...query, ...queryParams}`: the second spread wins). -/
theorem mergeParams_reserved_filter_wins (p : Nat) (s : Int)
    (ps : List (String × QVal)) (k : String)
    (hres : k = "page" ∨ k = "limit" ∨ k = "total")
    (h : (lookupQ ps k).isSome) :
    lookupQ (mergeParams (baseQuery p s) ps) k = lookupQ ps k :=
  lookupQ_mergeParams_of_isSome (baseQuery p s) ps k h

/-- C4, witness for the amended theorem at a concrete colliding filter. -/
theorem mergeParams_reserved_filter_wins_witness :
    lookupQ (mergeParams (baseQuery 1 100) [("page", QVal.str "7")]) "page"
      = lookupQ [("page", QVal.str "7")] "page" :=
  mergeParams_reserved_filter_wins 1 100 [("page", QVal.str "7")] "page"
    (Or.inl rfl) (by decide)

/-! ### C6 — the byte-count formatter -/

/-- C6: `formatFileSize` behaves as claimed on `null`/non-numeric input and
on `1024` and `1536`, but maps `0` to `""` instead of the claimed
`"0 Bytes"`: the guard `if (!bytes || isNaN(bytes)) return ''` is already
true for `0`, so the dedicated `if (bytes === 0) return '0 Bytes'` branch
just below it is dead code — the code contradicts its own explicit
`0 Bytes` branch. -/
theorem formatFileSize_zero_guard_bug :
    formatFileSize (some 0) = ""
      ∧ "" ≠ "0 Bytes"
      ∧ formatFileSize none = ""
      ∧ formatFileSize (some 1024) = "1 KB"
      ∧ formatFileSize (some 1536) = "1.5 KB" := by
  refine ⟨by decide, by decide, by decide, by decide, by decide⟩

/-! ### C7 — the filename slugifier -/

/-- C7, counterexample: the slugifier maps
`"https://My-Portal.getbynder.com/"` to `"my-portal-getbynder"`, not to the
claimed `"my-portal"` — the TLD-stripping step removes only the single
trailing suffix `.com`, so the `getbynder` label survives. -/
theorem slugifyDomain_keeps_getbynder :
    slugifyDomain (some "https://My-Portal.getbynder.com/") ≠ "my-portal"
      ∧ slugifyDomain (some "https://My-Portal.getbynder.com/") = "my-portal-getbynder" := by
  refine ⟨by decide, by decide⟩

/-- C7, as amended: the slugifier maps
`"https://My-Portal.getbynder.com/"` to `"my-portal-getbynder"` (protocol
and path stripped, one trailing TLD label removed, dot runs to dashes,
lowercased, trimmed), and maps `null` and the empty string to
`"unknown"`. -/
theorem slugifyDomain_portal_and_null :
    slugifyDomain (some "https://My-Portal.getbynder.com/") = "my-portal-getbynder"
      ∧ slugifyDomain none = "unknown"
      ∧ slugifyDomain (some "") = "unknown" := by
  refine ⟨by decide, by decide, by decide⟩

/-! ### Stepping lemmas for the getAllMediaItems pagination loop -/

theorem getAllLoopAux_stop {ε α : Type} (fetch : List (String × QVal) → Except ε (List α))
    (limit : Int) (qp : List (String × QVal)) (acc : List α) (p : Nat)
    (h : ¬ (acc.length : Int) < limit) :
    getAllLoopAux fetch limit qp acc p = (Except.ok acc, 0) := by
  rw [getAllLoopAux, dif_neg h]

theorem getAllLoopAux_error {ε α : Type} (F : Nat → Except ε (List α))
    (limit : Int) (qp : List (String × QVal)) (acc : List α) (p : Nat) (e : ε)
    (hqp : noKey qp "page")
    (hcond : (acc.length : Int) < limit) (hF : F p = Except.error e) :
    getAllLoopAux (fetchByPage F) limit qp acc p = (Except.error e, 1) := by
  rw [getAllLoopAux, dif_pos hcond]
  have hfetch : fetchByPage F
      (mergeParams (baseQuery p (min 100 (limit - (acc.length : Int)))) qp)
      = Except.error e := by
    simp [fetchByPage, pageNat_merge _ _ _ hqp, hF]
  rw [hfetch]

theorem getAllLoopAux_empty {ε α : Type} (F : Nat → Except ε (List α))
    (limit : Int) (qp : List (String × QVal)) (acc : List α) (p : Nat)
    (hqp : noKey qp "page")
    (hcond : (acc.length : Int) < limit) (hF : F p = Except.ok []) :
    getAllLoopAux (fetchByPage F) limit qp acc p = (Except.ok acc, 1) := by
  rw [getAllLoopAux, dif_pos hcond]
  have hfetch : fetchByPage F
      (mergeParams (baseQuery p (min 100 (limit - (acc.length : Int)))) qp)
      = Except.ok ([] : List α) := by
    simp [fetchByPage, pageNat_merge _ _ _ hqp, hF]
  rw [hfetch]
  rfl

theorem getAllLoopAux_step {ε α : Type} (F : Nat → Except ε (List α))
    (limit : Int) (qp : List (String × QVal)) (acc : List α) (p : Nat) (l : List α)
    (hqp : noKey qp "page")
    (hcond : (acc.length : Int) < limit) (hF : F p = Except.ok l) (hne : l ≠ []) :
    getAllLoopAux (fetchByPage F) limit qp acc p
      = ((getAllLoopAux (fetchByPage F) limit qp (acc ++ l) (p + 1)).1,
         (getAllLoopAux (fetchByPage F) limit qp (acc ++ l) (p + 1)).2 + 1) := by
  rw [getAllLoopAux, dif_pos hcond]
  have hfetch : fetchByPage F
      (mergeParams (baseQuery p (min 100 (limit - (acc.length : Int)))) qp)
      = Except.ok l := by
    simp [fetchByPage, pageNat_merge _ _ _ hqp, hF]
  rw [hfetch]
  have hne' : ¬ l.isEmpty = true := by
    simpa using hne
  simp [hne']

/-! ### Concatenation of upstream pages -/

theorem joinPagesE_zero {ε α : Type} (F : Nat → Except ε (List α)) (p : Nat) :
    joinPagesE F p 0 = [] := rfl

theorem joinPagesE_succ {ε α : Type} (F : Nat → Except ε (List α)) (p j : Nat) :
    joinPagesE F p (j + 1) = okD (F p) ++ joinPagesE F (p + 1) j := by
  simp [joinPagesE, List.range'_succ]

theorem joinPagesE_add {ε α : Type} (F : Nat → Except ε (List α)) :
    ∀ (a : Nat) (p b : Nat),
      joinPagesE F p (a + b) = joinPagesE F p a ++ joinPagesE F (p + a) b := by
  intro a
  induction a with
  | zero => intro p b; simp [joinPagesE_zero]
  | succ n ih =>
    intro p b
    have h1 : n + 1 + b = (n + b) + 1 := by omega
    rw [h1, joinPagesE_succ, joinPagesE_succ, ih (p + 1) b]
    simp [List.append_assoc]
    congr 1
    omega

/-- Running the loop over `j` consecutive successful non-empty pages appends
their concatenation to the accumulator and adds `j` upstream calls, provided
the accumulator stays strictly below the limit before each of those calls. -/
theorem getAllLoopAux_run {ε α : Type} (F : Nat → Except ε (List α))
    (limit : Int) (qp : List (String × QVal)) (hqp : noKey qp "page") :
    ∀ (j p : Nat) (acc : List α),
      (∀ i, i < j → ∃ l, F (p + i) = Except.ok l ∧ l ≠ []) →
      (∀ i, i < j → ((acc ++ joinPagesE F p i).length : Int) < limit) →
      getAllLoopAux (fetchByPage F) limit qp acc p
        = ((getAllLoopAux (fetchByPage F) limit qp (acc ++ joinPagesE F p j) (p + j)).1,
           (getAllLoopAux (fetchByPage F) limit qp (acc ++ joinPagesE F p j) (p + j)).2 + j) := by
  intro j
  induction j with
  | zero =>
    intro p acc _ _
    simp [joinPagesE_zero]
  | succ n ih =>
    intro p acc hok hlen
    obtain ⟨l, hFl0, hlne⟩ := hok 0 (Nat.succ_pos n)
    have hFl : F p = Except.ok l := by simpa using hFl0
    have hcond : ((acc.length : Int)) < limit := by
      have := hlen 0 (Nat.succ_pos n)
      simpa [joinPagesE_zero] using this
    rw [getAllLoopAux_step F limit qp acc p l hqp hcond hFl hlne]
    have hok' : ∀ i, i < n → ∃ l', F (p + 1 + i) = Except.ok l' ∧ l' ≠ [] := by
      intro i hi
      have := hok (i + 1) (by omega)
      simpa [show p + (i + 1) = p + 1 + i by omega] using this
    have hlen' : ∀ i, i < n → (((acc ++ l) ++ joinPagesE F (p + 1) i).length : Int) < limit := by
      intro i hi
      have := hlen (i + 1) (by omega)
      rw [joinPagesE_succ] at this
      have hl : okD (F p) = l := by simp [okD, hFl]
      simpa [hl, List.append_assoc] using this
    rw [ih (p + 1) (acc ++ l) hok' hlen']
    have hjoin : (acc ++ l) ++ joinPagesE F (p + 1) n = acc ++ joinPagesE F p (n + 1) := by
      rw [joinPagesE_succ]
      have hl : okD (F p) = l := by simp [okD, hFl]
      simp [hl, List.append_assoc]
    have hpage : p + 1 + n = p + (n + 1) := by omega
    rw [hjoin, hpage]
    rfl


/-! ### Stepping lemmas for the fetchMediaFromBynder pagination loop -/

theorem fetchLoopAux_stop {ε α : Type} (fetch : FQuery → Except ε (List α))
    (limit : Int) (base : FQuery) (acc : List α) (p t : Nat)
    (h : ¬ (acc.length : Int) < limit) :
    fetchLoopAux fetch limit base acc p t = (acc, 0) := by
  rw [fetchLoopAux, dif_neg h]

theorem fetchLoopAux_error {ε α : Type} (F : Nat → Except ε (List α))
    (limit : Int) (base : FQuery) (acc : List α) (p t : Nat) (e : ε)
    (hcond : (acc.length : Int) < limit) (hF : F p = Except.error e) :
    fetchLoopAux (fetchByPageF F) limit base acc p t = (acc, 1) := by
  rw [fetchLoopAux, dif_pos hcond]
  have hfetch : fetchByPageF F
      { base with page := p, limit := min 100 (limit - (acc.length : Int)), total := t }
      = Except.error e := by
    simp [fetchByPageF, hF]
  rw [hfetch]

theorem fetchLoopAux_empty {ε α : Type} (F : Nat → Except ε (List α))
    (limit : Int) (base : FQuery) (acc : List α) (p t : Nat)
    (hcond : (acc.length : Int) < limit) (hF : F p = Except.ok []) :
    fetchLoopAux (fetchByPageF F) limit base acc p t = (acc, 1) := by
  rw [fetchLoopAux, dif_pos hcond]
  have hfetch : fetchByPageF F
      { base with page := p, limit := min 100 (limit - (acc.length : Int)), total := t }
      = Except.ok ([] : List α) := by
    simp [fetchByPageF, hF]
  rw [hfetch]
  rfl

theorem fetchLoopAux_step {ε α : Type} (F : Nat → Except ε (List α))
    (limit : Int) (base : FQuery) (acc : List α) (p t : Nat) (l : List α)
    (hcond : (acc.length : Int) < limit) (hF : F p = Except.ok l) (hne : l ≠ []) :
    fetchLoopAux (fetchByPageF F) limit base acc p t
      = ((fetchLoopAux (fetchByPageF F) limit base (acc ++ l) (p + 1) 0).1,
         (fetchLoopAux (fetchByPageF F) limit base (acc ++ l) (p + 1) 0).2 + 1) := by
  rw [fetchLoopAux, dif_pos hcond]
  have hfetch : fetchByPageF F
      { base with page := p, limit := min 100 (limit - (acc.length : Int)), total := t }
      = Except.ok l := by
    simp [fetchByPageF, hF]
  rw [hfetch]
  have hne' : ¬ l.isEmpty = true := by
    simpa using hne
  simp [hne']

/-- Running the `fetchMediaFromBynder` loop over `j` consecutive successful
non-empty pages appends their concatenation and adds `j` calls; the `total`
flag is `0` after the first iteration. -/
theorem fetchLoopAux_run {ε α : Type} (F : Nat → Except ε (List α))
    (limit : Int) (base : FQuery) :
    ∀ (j p : Nat) (acc : List α) (t : Nat),
      (∀ i, i < j → ∃ l, F (p + i) = Except.ok l ∧ l ≠ []) →
      (∀ i, i < j → ((acc ++ joinPagesE F p i).length : Int) < limit) →
      fetchLoopAux (fetchByPageF F) limit base acc p t
        = ((fetchLoopAux (fetchByPageF F) limit base (acc ++ joinPagesE F p j) (p + j)
              (if j = 0 then t else 0)).1,
           (fetchLoopAux (fetchByPageF F) limit base (acc ++ joinPagesE F p j) (p + j)
              (if j = 0 then t else 0)).2 + j) := by
  intro j
  induction j with
  | zero =>
    intro p acc t _ _
    simp [joinPagesE_zero]
  | succ n ih =>
    intro p acc t hok hlen
    obtain ⟨l, hFl0, hlne⟩ := hok 0 (Nat.succ_pos n)
    have hFl : F p = Except.ok l := by simpa using hFl0
    have hcond : ((acc.length : Int)) < limit := by
      have := hlen 0 (Nat.succ_pos n)
      simpa [joinPagesE_zero] using this
    rw [fetchLoopAux_step F limit base acc p t l hcond hFl hlne]
    have hok' : ∀ i, i < n → ∃ l', F (p + 1 + i) = Except.ok l' ∧ l' ≠ [] := by
      intro i hi
      have := hok (i + 1) (by omega)
      simpa [show p + (i + 1) = p + 1 + i by omega] using this
    have hlen' : ∀ i, i < n → (((acc ++ l) ++ joinPagesE F (p + 1) i).length : Int) < limit := by
      intro i hi
      have := hlen (i + 1) (by omega)
      rw [joinPagesE_succ] at this
      have hl : okD (F p) = l := by simp [okD, hFl]
      simpa [hl, List.append_assoc] using this
    rw [ih (p + 1) (acc ++ l) 0 hok' hlen']
    have hjoin : (acc ++ l) ++ joinPagesE F (p + 1) n = acc ++ joinPagesE F p (n + 1) := by
      rw [joinPagesE_succ]
      have hl : okD (F p) = l := by simp [okD, hFl]
      simp [hl, List.append_assoc]
    have hpage : p + 1 + n = p + (n + 1) := by omega
    have htot : (if n = 0 then 0 else 0) = (0 : Nat) := by simp
    rw [htot, hjoin, hpage]
    simp
    omega

/-! ### Pure page sequences -/

/-- Concatenation of the pure pages `p, ..., p+j-1`. -/
def joinPages {α : Type} (pgs : Nat → List α) (p j : Nat) : List α :=
  ((List.range' p j).map pgs).flatten

theorem joinPagesE_ok {ε α : Type} (pgs : Nat → List α) (p j : Nat) :
    joinPagesE (fun n => (Except.ok (pgs n) : Except ε (List α))) p j
      = joinPages pgs p j := by
  simp [joinPagesE, joinPages, okD]

theorem joinPages_add {α : Type} (pgs : Nat → List α) (a p b : Nat) :
    joinPages pgs p (a + b) = joinPages pgs p a ++ joinPages pgs (p + a) b := by
  have h := joinPagesE_add (fun n => (Except.ok (pgs n) : Except Unit (List α))) a p b
  simpa [joinPagesE_ok] using h

theorem joinPages_succ {α : Type} (pgs : Nat → List α) (p j : Nat) :
    joinPages pgs p (j + 1) = pgs p ++ joinPages pgs (p + 1) j := by
  have h := joinPagesE_succ (fun n => (Except.ok (pgs n) : Except Unit (List α))) p j
  simpa [joinPagesE_ok, okD] using h

/-- Before the upstream is exhausted, each proper prefix of the page
concatenation is strictly shorter than the whole: the next page is
non-empty. -/
theorem joinPages_length_lt {α : Type} (pgs : Nat → List α) (N : Nat)
    (hne : ∀ i, 1 ≤ i → i < N → pgs i ≠ []) :
    ∀ i, i < N - 1 → (joinPages pgs 1 i).length < (joinPages pgs 1 (N - 1)).length := by
  intro i hi
  have hdecomp : joinPages pgs 1 i ++ joinPages pgs (1 + i) (N - 1 - i)
      = joinPages pgs 1 (N - 1) := by
    rw [← joinPages_add]
    congr 1
    omega
  have h2 : N - 1 - i = (N - 2 - i) + 1 := by omega
  have hsplit : joinPages pgs (1 + i) (N - 1 - i)
      = pgs (1 + i) ++ joinPages pgs (1 + i + 1) (N - 2 - i) := by
    rw [h2, joinPages_succ]
  have hpg : pgs (1 + i) ≠ [] := hne (1 + i) (by omega) (by omega)
  have hlen : 0 < (pgs (1 + i)).length := List.length_pos.mpr hpg
  rw [← hdecomp, hsplit]
  simp [List.length_append]
  omega

/-! ### C1 — exhaustion returns the concatenation of all non-empty pages -/

theorem getAllMediaItems_concat_core {ε α : Type} (pgs : Nat → List α)
    (N : Nat) (limit : Int) (qp : List (String × QVal))
    (hqp : noKey qp "page") (hN : 1 ≤ N)
    (hne : ∀ i, 1 ≤ i → i < N → pgs i ≠ [])
    (hN0 : pgs N = [])
    (htot : ((joinPages pgs 1 (N - 1)).length : Int) ≤ limit) :
    getAllMediaItems (fetchByPage (fun n => (Except.ok (pgs n) : Except ε (List α)))) limit qp
      = Except.ok (joinPages pgs 1 (N - 1)) := by
  have hok : ∀ i, i < N - 1 →
      ∃ l, (fun n => (Except.ok (pgs n) : Except ε (List α))) (1 + i) = Except.ok l ∧ l ≠ [] := by
    intro i hi
    exact ⟨pgs (1 + i), rfl, hne (1 + i) (by omega) (by omega)⟩
  have hlen : ∀ i, i < N - 1 →
      ((([] : List α) ++ joinPagesE (fun n => (Except.ok (pgs n) : Except ε (List α))) 1 i).length : Int) < limit := by
    intro i hi
    have hlt := joinPages_length_lt pgs N hne i hi
    rw [List.nil_append, joinPagesE_ok]
    have : ((joinPages pgs 1 i).length : Int) < ((joinPages pgs 1 (N - 1)).length : Int) := by
      exact_mod_cast hlt
    omega
  have hrun := getAllLoopAux_run (fun n => (Except.ok (pgs n) : Except ε (List α)))
    limit qp hqp (N - 1) 1 [] hok hlen
  rw [getAllMediaItems, hrun]
  rw [List.nil_append, joinPagesE_ok] at *
  have hN1 : 1 + (N - 1) = N := by omega
  rw [hN1]
  by_cases hfin : (((joinPages pgs 1 (N - 1)).length : Int)) < limit
  · rw [getAllLoopAux_empty (fun n => (Except.ok (pgs n) : Except ε (List α)))
      limit qp (joinPages pgs 1 (N - 1)) N hqp hfin (by simp [hN0])]
  · rw [getAllLoopAux_stop (fetchByPage (fun n => (Except.ok (pgs n) : Except ε (List α))))
      limit qp (joinPages pgs 1 (N - 1)) N hfin]

theorem fetchMediaFromBynder_concat_core {ε α : Type} (pgs : Nat → List α)
    (N : Nat) (mqp : MediaQueryParams) (hN : 1 ≤ N)
    (hne : ∀ i, 1 ≤ i → i < N → pgs i ≠ [])
    (hN0 : pgs N = [])
    (htot : ((joinPages pgs 1 (N - 1)).length : Int) ≤ effectiveLimit mqp) :
    fetchMediaFromBynder (fetchByPageF (fun n => (Except.ok (pgs n) : Except ε (List α)))) mqp
      = joinPages pgs 1 (N - 1) := by
  have hok : ∀ i, i < N - 1 →
      ∃ l, (fun n => (Except.ok (pgs n) : Except ε (List α))) (1 + i) = Except.ok l ∧ l ≠ [] := by
    intro i hi
    exact ⟨pgs (1 + i), rfl, hne (1 + i) (by omega) (by omega)⟩
  have hlen : ∀ i, i < N - 1 →
      ((([] : List α) ++ joinPagesE (fun n => (Except.ok (pgs n) : Except ε (List α))) 1 i).length : Int)
        < effectiveLimit mqp := by
    intro i hi
    have hlt := joinPages_length_lt pgs N hne i hi
    rw [List.nil_append, joinPagesE_ok]
    have : ((joinPages pgs 1 i).length : Int) < ((joinPages pgs 1 (N - 1)).length : Int) := by
      exact_mod_cast hlt
    omega
  have hrun := fetchLoopAux_run (fun n => (Except.ok (pgs n) : Except ε (List α)))
    (effectiveLimit mqp) (initQuery mqp) (N - 1) 1 [] 1 hok hlen
  rw [fetchMediaFromBynder, hrun]
  rw [List.nil_append, joinPagesE_ok] at *
  have hN1 : 1 + (N - 1) = N := by omega
  rw [hN1]
  by_cases hfin : (((joinPages pgs 1 (N - 1)).length : Int)) < effectiveLimit mqp
  · rw [fetchLoopAux_empty (fun n => (Except.ok (pgs n) : Except ε (List α)))
      (effectiveLimit mqp) (initQuery mqp) (joinPages pgs 1 (N - 1)) N _ hfin (by simp [hN0])]
  · rw [fetchLoopAux_stop (fetchByPageF (fun n => (Except.ok (pgs n) : Except ε (List α))))
      (effectiveLimit mqp) (initQuery mqp) (joinPages pgs 1 (N - 1)) N _ hfin]

/-- C1, as amended: for every upstream page sequence whose page `N` is the
first empty page, both paginated fetches return exactly the concatenation of
pages `1..N-1` *provided the requested limit is at least the total number of
items in those pages* (and, for `getAllMediaItems`, the filter mapping does
not rebind the reserved `page` key).  Without that bound the loop stops as
soon as the accumulator reaches the limit and returns only a prefix of the
concatenation — not "regardless of the requested limit". -/
theorem paginated_fetch_concat_of_limit_ge_total {ε α : Type} (pgs : Nat → List α)
    (N : Nat) (limit : Int) (qp : List (String × QVal)) (mqp : MediaQueryParams)
    (hqp : noKey qp "page") (hN : 1 ≤ N)
    (hne : ∀ i, 1 ≤ i → i < N → pgs i ≠ [])
    (hN0 : pgs N = [])
    (htot : ((joinPages pgs 1 (N - 1)).length : Int) ≤ limit)
    (htot2 : ((joinPages pgs 1 (N - 1)).length : Int) ≤ effectiveLimit mqp) :
    getAllMediaItems (fetchByPage (fun n => (Except.ok (pgs n) : Except ε (List α)))) limit qp
      = Except.ok (joinPages pgs 1 (N - 1))
    ∧ fetchMediaFromBynder (fetchByPageF (fun n => (Except.ok (pgs n) : Except ε (List α)))) mqp
      = joinPages pgs 1 (N - 1) :=
  ⟨getAllMediaItems_concat_core pgs N limit qp hqp hN hne hN0 htot,
   fetchMediaFromBynder_concat_core pgs N mqp hN hne hN0 htot2⟩

/-- C1, witness for the amended theorem: a single empty page (`N = 1`). -/
theorem paginated_fetch_concat_witness :
    getAllMediaItems (fetchByPage (fun _ => (Except.ok [] : Except Unit (List Nat)))) 0 []
      = Except.ok (joinPages (fun _ => ([] : List Nat)) 1 0)
    ∧ fetchMediaFromBynder (fetchByPageF (fun _ => (Except.ok [] : Except Unit (List Nat))))
        ⟨none, none, none, none, none⟩
      = joinPages (fun _ => ([] : List Nat)) 1 0 :=
  paginated_fetch_concat_of_limit_ge_total (fun _ => ([] : List Nat)) 1 0 []
    ⟨none, none, none, none, none⟩ (by simp [noKey]) (by omega)
    (fun i h1 h2 => absurd (Nat.lt_of_le_of_lt h1 h2) (lt_irrefl 1))
    rfl (by simp [joinPages]) (by simp [joinPages, effectiveLimit])

/-- C1, counterexample: pages `[0]`, `[1]`, then empty (first empty page is
page 3), requested limit `1`.  The fetch stops after page 1 with `[0]` — not
the concatenation `[0, 1]` of pages 1..2 — so the claim's "regardless of the
requested limit" is false. -/
theorem getAllMediaItems_limit_cuts_concat :
    getAllMediaItems (ε := Unit)
        (fetchByPage (fun n => Except.ok
          (if n = 1 then [0] else if n = 2 then [1] else ([] : List Nat)))) 1 []
      = Except.ok [0]
    ∧ joinPages (fun n => if n = 1 then [0] else if n = 2 then [1] else ([] : List Nat)) 1 2
      = [0, 1]
    ∧ (Except.ok [0] : Except Unit (List Nat)) ≠ Except.ok [0, 1] := by
  refine ⟨?_, by decide, by simp⟩
  simp [getAllMediaItems, getAllLoopAux, fetchByPage, pageNat, mergeParams, baseQuery,
    lookupQ, List.find?]

/-! ### C5 — the per-page failure policy -/

theorem joinPagesE_congr_ok {ε α : Type} (F : Nat → Except ε (List α))
    (pgs : Nat → List α) (p j : Nat)
    (h : ∀ n, p ≤ n → n < p + j → F n = Except.ok (pgs n)) :
    joinPagesE F p j = joinPages pgs p j := by
  unfold joinPagesE joinPages
  congr 1
  apply List.map_congr_left
  intro a ha
  have hmem := List.mem_range'_1.mp ha
  simp [okD, h a hmem.1 hmem.2]

theorem joinPages_mono_length {α : Type} (pgs : Nat → List α) (i j : Nat) (hij : i ≤ j) :
    (joinPages pgs 1 i).length ≤ (joinPages pgs 1 j).length := by
  have h1 : j = i + (j - i) := by omega
  rw [h1, joinPages_add]
  simp [List.length_append]

/-- C5, as amended: the two pagination loops disagree on the per-page failure
policy.  When pages `1..m-1` succeed with non-empty results (their total
still below the limit) and the request for page `m` fails,
`fetchMediaFromBynder` swallows the failure — it stops the loop and returns
the items accumulated from pages `1..m-1` (stop-and-return-partial) — but
`getAllMediaItems` has no per-page catch and *propagates* the failure to its
caller (its outer catch re-throws). -/
theorem paginated_fetch_error_policy {ε α : Type} (F : Nat → Except ε (List α))
    (pgs : Nat → List α) (m : Nat) (limit : Int) (qp : List (String × QVal))
    (mqp : MediaQueryParams) (e : ε)
    (hqp : noKey qp "page") (hm : 1 ≤ m)
    (hFok : ∀ i, 1 ≤ i → i < m → F i = Except.ok (pgs i))
    (hne : ∀ i, 1 ≤ i → i < m → pgs i ≠ [])
    (hFm : F m = Except.error e)
    (htot : ((joinPages pgs 1 (m - 1)).length : Int) < limit)
    (htot2 : ((joinPages pgs 1 (m - 1)).length : Int) < effectiveLimit mqp) :
    getAllMediaItems (fetchByPage F) limit qp = Except.error e
    ∧ fetchMediaFromBynder (fetchByPageF F) mqp = joinPages pgs 1 (m - 1) := by
  have hok : ∀ i, i < m - 1 → ∃ l, F (1 + i) = Except.ok l ∧ l ≠ [] := by
    intro i hi
    exact ⟨pgs (1 + i), hFok (1 + i) (by omega) (by omega),
      hne (1 + i) (by omega) (by omega)⟩
  have hcong : ∀ i, i ≤ m - 1 → joinPagesE F 1 i = joinPages pgs 1 i := by
    intro i hi
    apply joinPagesE_congr_ok
    intro n hn1 hn2
    exact hFok n hn1 (by omega)
  have hpref : ∀ i, i < m - 1 →
      ((joinPages pgs 1 i).length : Int) ≤ ((joinPages pgs 1 (m - 1)).length : Int) := by
    intro i hi
    exact_mod_cast joinPages_mono_length pgs i (m - 1) (by omega)
  have hm1 : 1 + (m - 1) = m := by omega
  constructor
  · have hlen : ∀ i, i < m - 1 →
        ((([] : List α) ++ joinPagesE F 1 i).length : Int) < limit := by
      intro i hi
      rw [List.nil_append, hcong i (by omega)]
      have := hpref i hi
      omega
    have hrun := getAllLoopAux_run F limit qp hqp (m - 1) 1 [] hok hlen
    rw [getAllMediaItems, hrun, List.nil_append, hcong (m - 1) (le_refl _), hm1]
    rw [getAllLoopAux_error F limit qp (joinPages pgs 1 (m - 1)) m e hqp htot hFm]
  · have hlen2 : ∀ i, i < m - 1 →
        ((([] : List α) ++ joinPagesE F 1 i).length : Int) < effectiveLimit mqp := by
      intro i hi
      rw [List.nil_append, hcong i (by omega)]
      have := hpref i hi
      omega
    have hrun := fetchLoopAux_run F (effectiveLimit mqp) (initQuery mqp)
      (m - 1) 1 [] 1 hok hlen2
    rw [fetchMediaFromBynder, hrun, List.nil_append, hcong (m - 1) (le_refl _), hm1]
    rw [fetchLoopAux_error F (effectiveLimit mqp) (initQuery mqp)
      (joinPages pgs 1 (m - 1)) m _ e htot2 hFm]

/-- C5, witness for the amended theorem: the very first page fails
(`m = 1`, zero successful pages). -/
theorem paginated_fetch_error_policy_witness :
    getAllMediaItems (fetchByPage (fun _ => (Except.error () : Except Unit (List Nat)))) 5 []
      = Except.error ()
    ∧ fetchMediaFromBynder (fetchByPageF (fun _ => (Except.error () : Except Unit (List Nat))))
        ⟨none, none, none, none, none⟩
      = joinPages (fun _ => ([] : List Nat)) 1 0 :=
  paginated_fetch_error_policy (fun _ => Except.error ()) (fun _ => ([] : List Nat)) 1 5 []
    ⟨none, none, none, none, none⟩ () (by simp [noKey]) (by omega)
    (fun i h1 h2 => absurd (Nat.lt_of_le_of_lt h1 h2) (lt_irrefl 1))
    (fun i h1 h2 => absurd (Nat.lt_of_le_of_lt h1 h2) (lt_irrefl 1))
    rfl (by simp [joinPages]) (by simp [joinPages, effectiveLimit])

/-- C5, counterexample: page 1 succeeds with `[0]`, page 2 fails.
`getAllMediaItems` returns the error — it does *not* return the partial
accumulation `[0]` — so the stop-and-return-partial claim is false for it. -/
theorem getAllMediaItems_propagates_error :
    getAllMediaItems
        (fetchByPage (fun n => if n = 1 then Except.ok [0] else (Except.error () : Except Unit (List Nat)))) 5 []
      = Except.error ()
    ∧ (Except.error () : Except Unit (List Nat)) ≠ Except.ok [0] := by
  refine ⟨?_, by simp⟩
  simp [getAllMediaItems, getAllLoopAux, fetchByPage, pageNat, mergeParams, baseQuery,
    lookupQ, List.find?]

/-! ### General one-iteration equations for arbitrary upstream functions -/

theorem getAllLoopAux_gen_error {ε α : Type} (fetch : List (String × QVal) → Except ε (List α))
    (limit : Int) (qp : List (String × QVal)) (acc : List α) (p : Nat) (e : ε)
    (hcond : (acc.length : Int) < limit)
    (hf : fetch (mergeParams (baseQuery p (min 100 (limit - (acc.length : Int)))) qp)
      = Except.error e) :
    getAllLoopAux fetch limit qp acc p = (Except.error e, 1) := by
  rw [getAllLoopAux, dif_pos hcond, hf]

theorem getAllLoopAux_gen_empty {ε α : Type} (fetch : List (String × QVal) → Except ε (List α))
    (limit : Int) (qp : List (String × QVal)) (acc : List α) (p : Nat)
    (hcond : (acc.length : Int) < limit)
    (hf : fetch (mergeParams (baseQuery p (min 100 (limit - (acc.length : Int)))) qp)
      = Except.ok ([] : List α)) :
    getAllLoopAux fetch limit qp acc p = (Except.ok acc, 1) := by
  rw [getAllLoopAux, dif_pos hcond, hf]
  rfl

theorem getAllLoopAux_gen_step {ε α : Type} (fetch : List (String × QVal) → Except ε (List α))
    (limit : Int) (qp : List (String × QVal)) (acc : List α) (p : Nat) (l : List α)
    (hcond : (acc.length : Int) < limit)
    (hf : fetch (mergeParams (baseQuery p (min 100 (limit - (acc.length : Int)))) qp)
      = Except.ok l)
    (hne : l ≠ []) :
    getAllLoopAux fetch limit qp acc p
      = ((getAllLoopAux fetch limit qp (acc ++ l) (p + 1)).1,
         (getAllLoopAux fetch limit qp (acc ++ l) (p + 1)).2 + 1) := by
  rw [getAllLoopAux, dif_pos hcond, hf]
  have hne' : ¬ l.isEmpty = true := by simpa using hne
  simp [hne']

theorem fetchLoopAux_gen_error {ε α : Type} (fetch : FQuery → Except ε (List α))
    (limit : Int) (base : FQuery) (acc : List α) (p t : Nat) (e : ε)
    (hcond : (acc.length : Int) < limit)
    (hf : fetch { base with page := p, limit := min 100 (limit - (acc.length : Int)), total := t }
      = Except.error e) :
    fetchLoopAux fetch limit base acc p t = (acc, 1) := by
  rw [fetchLoopAux, dif_pos hcond, hf]

theorem fetchLoopAux_gen_empty {ε α : Type} (fetch : FQuery → Except ε (List α))
    (limit : Int) (base : FQuery) (acc : List α) (p t : Nat)
    (hcond : (acc.length : Int) < limit)
    (hf : fetch { base with page := p, limit := min 100 (limit - (acc.length : Int)), total := t }
      = Except.ok ([] : List α)) :
    fetchLoopAux fetch limit base acc p t = (acc, 1) := by
  rw [fetchLoopAux, dif_pos hcond, hf]
  rfl

theorem fetchLoopAux_gen_step {ε α : Type} (fetch : FQuery → Except ε (List α))
    (limit : Int) (base : FQuery) (acc : List α) (p t : Nat) (l : List α)
    (hcond : (acc.length : Int) < limit)
    (hf : fetch { base with page := p, limit := min 100 (limit - (acc.length : Int)), total := t }
      = Except.ok l)
    (hne : l ≠ []) :
    fetchLoopAux fetch limit base acc p t
      = ((fetchLoopAux fetch limit base (acc ++ l) (p + 1) 0).1,
         (fetchLoopAux fetch limit base (acc ++ l) (p + 1) 0).2 + 1) := by
  rw [fetchLoopAux, dif_pos hcond, hf]
  have hne' : ¬ l.isEmpty = true := by simpa using hne
  simp [hne']

/-! ### C2 — the result length versus the requested limit -/

theorem getAllLoopAux_ok_length_le {ε α : Type}
    (fetch : List (String × QVal) → Except ε (List α)) (limit : Int)
    (qp : List (String × QVal)) (hqp : noKey qp "limit")
    (hresp : ∀ q l, fetch q = Except.ok l → l ≠ [] →
      ∀ s, lookupQ q "limit" = some (QVal.num s) → (l.length : Int) ≤ s) :
    ∀ (n : Nat) (acc : List α) (p : Nat),
      (limit - (acc.length : Int)).toNat ≤ n →
      ∀ r, (getAllLoopAux fetch limit qp acc p).1 = Except.ok r →
        (r.length : Int) ≤ max limit (acc.length : Int) := by
  intro n
  induction n with
  | zero =>
    intro acc p hmeas r hr
    have hcond : ¬ ((acc.length : Int) < limit) := by omega
    rw [getAllLoopAux_stop fetch limit qp acc p hcond] at hr
    simp at hr
    subst hr
    simp
  | succ n ih =>
    intro acc p hmeas r hr
    by_cases hcond : ((acc.length : Int)) < limit
    · cases hf : fetch (mergeParams (baseQuery p (min 100 (limit - (acc.length : Int)))) qp) with
      | error e =>
        rw [getAllLoopAux_gen_error fetch limit qp acc p e hcond hf] at hr
        simp at hr
      | ok l =>
        by_cases hl : l = []
        · subst hl
          rw [getAllLoopAux_gen_empty fetch limit qp acc p hcond hf] at hr
          simp at hr
          subst hr
          simp
        · rw [getAllLoopAux_gen_step fetch limit qp acc p l hcond hf hl] at hr
          simp only [] at hr
          have hsize : (l.length : Int) ≤ min 100 (limit - (acc.length : Int)) := by
            exact hresp _ l hf hl _ (lookupQ_merge_limit p _ qp hqp)
          have hlpos : 0 < l.length := List.length_pos.mpr hl
          have hmeas' : (limit - ((acc ++ l).length : Int)).toNat ≤ n := by
            simp only [List.length_append]
            push_cast
            omega
          have := ih (acc ++ l) (p + 1) hmeas' r hr
          simp only [List.length_append] at this hsize ⊢
          push_cast at this hsize ⊢
          omega
    · rw [getAllLoopAux_stop fetch limit qp acc p hcond] at hr
      simp at hr
      subst hr
      simp

theorem fetchLoopAux_length_le {ε α : Type}
    (fetch : FQuery → Except ε (List α)) (limit : Int) (base : FQuery)
    (hresp : ∀ q l, fetch q = Except.ok l → l ≠ [] → (l.length : Int) ≤ q.limit) :
    ∀ (n : Nat) (acc : List α) (p t : Nat),
      (limit - (acc.length : Int)).toNat ≤ n →
      ((fetchLoopAux fetch limit base acc p t).1.length : Int)
        ≤ max limit (acc.length : Int) := by
  intro n
  induction n with
  | zero =>
    intro acc p t hmeas
    have hcond : ¬ ((acc.length : Int) < limit) := by omega
    rw [fetchLoopAux_stop fetch limit base acc p t hcond]
    simp
  | succ n ih =>
    intro acc p t hmeas
    by_cases hcond : ((acc.length : Int)) < limit
    · cases hf : fetch { base with page := p, limit := min 100 (limit - (acc.length : Int)), total := t } with
      | error e =>
        rw [fetchLoopAux_gen_error fetch limit base acc p t e hcond hf]
        simp
      | ok l =>
        by_cases hl : l = []
        · subst hl
          rw [fetchLoopAux_gen_empty fetch limit base acc p t hcond hf]
          simp
        · rw [fetchLoopAux_gen_step fetch limit base acc p t l hcond hf hl]
          have hsize : (l.length : Int) ≤ min 100 (limit - (acc.length : Int)) := by
            have := hresp _ l hf hl
            simpa using this
          have hlpos : 0 < l.length := List.length_pos.mpr hl
          have hmeas' : (limit - ((acc ++ l).length : Int)).toNat ≤ n := by
            simp only [List.length_append]
            push_cast
            omega
          have := ih (acc ++ l) (p + 1) 0 hmeas'
          simp only [List.length_append] at this hsize ⊢
          push_cast at this hsize ⊢
          omega
    · rw [fetchLoopAux_stop fetch limit base acc p t hcond]
      simp

/-- C2, as amended: the loops perform no truncation, so the result can only
be bounded by the limit when the upstream respects the per-call request.
If every successful upstream response contains at most the number of items
requested in that call's `limit` field, then the accumulated result has at
most `max limit 0` items (and likewise for `fetchMediaFromBynder` with its
defaulted effective limit).  When the final page overshoots the request, the
result exceeds the limit — the accumulated list is returned as-is. -/
theorem paginated_fetch_length_bound {ε α : Type}
    (fetch : List (String × QVal) → Except ε (List α))
    (fetchF : FQuery → Except ε (List α)) (limit : Int)
    (qp : List (String × QVal)) (mqp : MediaQueryParams)
    (hqp : noKey qp "limit")
    (hresp : ∀ q l, fetch q = Except.ok l → l ≠ [] →
      ∀ s, lookupQ q "limit" = some (QVal.num s) → (l.length : Int) ≤ s)
    (hrespF : ∀ q l, fetchF q = Except.ok l → l ≠ [] → (l.length : Int) ≤ q.limit) :
    (∀ r, getAllMediaItems fetch limit qp = Except.ok r → (r.length : Int) ≤ max limit 0)
    ∧ ((fetchMediaFromBynder fetchF mqp).length : Int) ≤ max (effectiveLimit mqp) 0 := by
  constructor
  · intro r hr
    have := getAllLoopAux_ok_length_le fetch limit qp hqp hresp
      (limit - 0).toNat [] 1 (by simp) r hr
    simpa using this
  · have := fetchLoopAux_length_le fetchF (effectiveLimit mqp) (initQuery mqp) hrespF
      (effectiveLimit mqp - 0).toNat [] 1 1 (by simp)
    simpa [fetchMediaFromBynder] using this

/-- C2, witness for the amended bound: an upstream that always answers with
an empty page trivially respects every request. -/
theorem paginated_fetch_length_bound_witness :
    (∀ r, getAllMediaItems (fun _ => (Except.ok [] : Except Unit (List Nat))) 7 []
        = Except.ok r → (r.length : Int) ≤ max 7 0)
    ∧ ((fetchMediaFromBynder (fun _ => (Except.ok [] : Except Unit (List Nat)))
        ⟨none, none, none, none, none⟩).length : Int)
      ≤ max (effectiveLimit ⟨none, none, none, none, none⟩) 0 :=
  paginated_fetch_length_bound (fun _ => Except.ok []) (fun _ => Except.ok []) 7 []
    ⟨none, none, none, none, none⟩ (by simp [noKey])
    (fun q l h hne s hs => absurd (Except.ok.inj h).symm hne)
    (fun q l h hne => absurd (Except.ok.inj h).symm hne)

/-- C2, counterexample: with limit `1`, an upstream page that overshoots the
request with two items makes `getAllMediaItems` return both — the result is
*not* truncated to the limit. -/
theorem getAllMediaItems_no_truncation :
    getAllMediaItems (ε := Unit) (fun _ => Except.ok ([0, 1] : List Nat)) 1 []
      = Except.ok [0, 1]
    ∧ ¬ ((([0, 1] : List Nat).length : Int) ≤ 1) := by
  refine ⟨?_, by decide⟩
  simp [getAllMediaItems, getAllLoopAux]

/-! ### C3 — nonpositive limits -/

/-- C3, as amended: for `getAllMediaItems` every limit `≤ 0` yields an empty
result and zero upstream calls; for `fetchMediaFromBynder` this holds for
every *negative* parsed limit, while a parsed limit of exactly `0` is falsy
in `parseInt(queryParams.limit) || 100` and silently becomes the default
`100`, so the upstream *is* called in that case. -/
theorem paginated_fetch_nonpositive_limit {ε α : Type}
    (fetch : List (String × QVal) → Except ε (List α))
    (fetchF : FQuery → Except ε (List α)) (limit : Int)
    (qp : List (String × QVal)) (mqp : MediaQueryParams) (n : Int)
    (hlim : limit ≤ 0) (hmqp : mqp.limit = some n) (hn : n < 0) :
    (getAllMediaItems fetch limit qp = Except.ok ([] : List α)
      ∧ getAllMediaItemsCalls fetch limit qp = 0)
    ∧ (fetchMediaFromBynder fetchF mqp = ([] : List α)
      ∧ fetchMediaCalls fetchF mqp = 0) := by
  have h1 : ¬ (((([] : List α)).length : Int) < limit) := by
    simp
    omega
  have heff : effectiveLimit mqp = n := by
    unfold effectiveLimit
    rw [hmqp]
    show (if n = 0 then (100 : Int) else n) = n
    rw [if_neg (show ¬ n = 0 by omega)]
  have h2 : ¬ (((([] : List α)).length : Int) < effectiveLimit mqp) := by
    rw [heff]
    simp
    omega
  refine ⟨⟨?_, ?_⟩, ?_, ?_⟩
  · rw [getAllMediaItems, getAllLoopAux_stop fetch limit qp [] 1 h1]
  · rw [getAllMediaItemsCalls, getAllLoopAux_stop fetch limit qp [] 1 h1]
  · rw [fetchMediaFromBynder, fetchLoopAux_stop fetchF (effectiveLimit mqp) (initQuery mqp) [] 1 1 h2]
  · rw [fetchMediaCalls, fetchLoopAux_stop fetchF (effectiveLimit mqp) (initQuery mqp) [] 1 1 h2]

/-- C3, witness for the amended theorem at limit `0` / parsed limit `-1`. -/
theorem paginated_fetch_nonpositive_limit_witness :
    (getAllMediaItems (fun _ => (Except.ok [] : Except Unit (List Nat))) 0 []
        = Except.ok ([] : List Nat)
      ∧ getAllMediaItemsCalls (fun _ => (Except.ok [] : Except Unit (List Nat))) 0 [] = 0)
    ∧ (fetchMediaFromBynder (fun _ => (Except.ok [] : Except Unit (List Nat)))
        ⟨some (-1), none, none, none, none⟩ = ([] : List Nat)
      ∧ fetchMediaCalls (fun _ => (Except.ok [] : Except Unit (List Nat)))
        ⟨some (-1), none, none, none, none⟩ = 0) :=
  paginated_fetch_nonpositive_limit (fun _ => Except.ok []) (fun _ => Except.ok []) 0 []
    ⟨some (-1), none, none, none, none⟩ (-1) (by omega) rfl (by omega)

/-- C3, counterexample: a requested limit of exactly `0` is coerced to the
default `100` by `parseInt(queryParams.limit) || 100`, so
`fetchMediaFromBynder` issues an upstream call (and returns 100 items here)
instead of returning an empty sequence with zero calls. -/
theorem fetchMediaFromBynder_limit_zero_calls_upstream :
    fetchMediaFromBynder (fun _ => (Except.ok (List.replicate 100 0) : Except Unit (List Nat)))
        ⟨some 0, none, none, none, none⟩ = List.replicate 100 0
    ∧ fetchMediaCalls (fun _ => (Except.ok (List.replicate 100 0) : Except Unit (List Nat)))
        ⟨some 0, none, none, none, none⟩ = 1
    ∧ (1 : Nat) ≠ 0 ∧ List.replicate 100 (0 : Nat) ≠ [] := by
  refine ⟨?_, ?_, by decide, by simp⟩
  · simp [fetchMediaFromBynder, fetchLoopAux, effectiveLimit, initQuery]
  · simp [fetchMediaCalls, fetchLoopAux, effectiveLimit, initQuery]

/-! ### C10 — termination: the number of upstream calls is bounded -/

theorem getAllLoopAux_calls_le {ε α : Type}
    (fetch : List (String × QVal) → Except ε (List α)) (limit : Int)
    (qp : List (String × QVal)) :
    ∀ (n : Nat) (acc : List α) (p : Nat),
      (limit - (acc.length : Int)).toNat ≤ n →
      (getAllLoopAux fetch limit qp acc p).2 ≤ (limit - (acc.length : Int)).toNat + 1 := by
  intro n
  induction n with
  | zero =>
    intro acc p hmeas
    have hcond : ¬ ((acc.length : Int) < limit) := by omega
    rw [getAllLoopAux_stop fetch limit qp acc p hcond]
    simp
  | succ n ih =>
    intro acc p hmeas
    by_cases hcond : ((acc.length : Int)) < limit
    · cases hf : fetch (mergeParams (baseQuery p (min 100 (limit - (acc.length : Int)))) qp) with
      | error e =>
        rw [getAllLoopAux_gen_error fetch limit qp acc p e hcond hf]
        simp
      | ok l =>
        by_cases hl : l = []
        · subst hl
          rw [getAllLoopAux_gen_empty fetch limit qp acc p hcond hf]
          simp
        · rw [getAllLoopAux_gen_step fetch limit qp acc p l hcond hf hl]
          have hlpos : 0 < l.length := List.length_pos.mpr hl
          have hmeas' : (limit - ((acc ++ l).length : Int)).toNat ≤ n := by
            simp only [List.length_append]
            push_cast
            omega
          have := ih (acc ++ l) (p + 1) hmeas'
          simp only [List.length_append] at this ⊢
          push_cast at this ⊢
          omega
    · rw [getAllLoopAux_stop fetch limit qp acc p hcond]
      simp

theorem fetchLoopAux_calls_le {ε α : Type}
    (fetch : FQuery → Except ε (List α)) (limit : Int) (base : FQuery) :
    ∀ (n : Nat) (acc : List α) (p t : Nat),
      (limit - (acc.length : Int)).toNat ≤ n →
      (fetchLoopAux fetch limit base acc p t).2 ≤ (limit - (acc.length : Int)).toNat + 1 := by
  intro n
  induction n with
  | zero =>
    intro acc p t hmeas
    have hcond : ¬ ((acc.length : Int) < limit) := by omega
    rw [fetchLoopAux_stop fetch limit base acc p t hcond]
    simp
  | succ n ih =>
    intro acc p t hmeas
    by_cases hcond : ((acc.length : Int)) < limit
    · cases hf : fetch { base with page := p, limit := min 100 (limit - (acc.length : Int)), total := t } with
      | error e =>
        rw [fetchLoopAux_gen_error fetch limit base acc p t e hcond hf]
        simp
      | ok l =>
        by_cases hl : l = []
        · subst hl
          rw [fetchLoopAux_gen_empty fetch limit base acc p t hcond hf]
          simp
        · rw [fetchLoopAux_gen_step fetch limit base acc p t l hcond hf hl]
          have hlpos : 0 < l.length := List.length_pos.mpr hl
          have hmeas' : (limit - ((acc ++ l).length : Int)).toNat ≤ n := by
            simp only [List.length_append]
            push_cast
            omega
          have := ih (acc ++ l) (p + 1) 0 hmeas'
          simp only [List.length_append] at this ⊢
          push_cast at this ⊢
          omega
    · rw [fetchLoopAux_stop fetch limit base acc p t hcond]
      simp

/-- C10: both pagination loops always return after finitely many upstream
calls — at most `limit + 1` of them (each call either contributes at least
one item, strictly shrinking `limit - collected`, or is the last call) —
for *every* upstream function, whether its calls succeed, come back empty,
or fail. -/
theorem paginated_fetch_call_bound {ε α : Type}
    (fetch : List (String × QVal) → Except ε (List α))
    (fetchF : FQuery → Except ε (List α)) (limit : Int)
    (qp : List (String × QVal)) (mqp : MediaQueryParams) :
    getAllMediaItemsCalls fetch limit qp ≤ limit.toNat + 1
    ∧ fetchMediaCalls fetchF mqp ≤ (effectiveLimit mqp).toNat + 1 := by
  constructor
  · have := getAllLoopAux_calls_le fetch limit qp (limit - 0).toNat [] 1 (by simp)
    simpa [getAllMediaItemsCalls] using this
  · have := fetchLoopAux_calls_le fetchF (effectiveLimit mqp) (initQuery mqp)
      (effectiveLimit mqp - 0).toNat [] 1 1 (by simp)
    simpa [fetchMediaCalls] using this

/-! ### C8 — column discovery and the row-key invariant -/

theorem mem_insCols_of_mem :
    ∀ (row : List (String × String)) (cols : List String) (x : String),
      x ∈ cols → x ∈ insCols cols row := by
  intro row
  induction row with
  | nil =>
    intro cols x h
    simpa [insCols] using h
  | cons q rest ih =>
    intro cols x h
    have h' : x ∈ (if q.1 ∈ cols then cols else cols ++ [q.1]) := by
      by_cases hq : q.1 ∈ cols <;> simp [hq, h]
    have := ih (if q.1 ∈ cols then cols else cols ++ [q.1]) x h'
    simpa [insCols] using this

theorem mem_insCols_self :
    ∀ (row : List (String × String)) (cols : List String) (p : String × String),
      p ∈ row → p.1 ∈ insCols cols row := by
  intro row
  induction row with
  | nil =>
    intro cols p h
    simp at h
  | cons q rest ih =>
    intro cols p h
    rcases List.mem_cons.mp h with heq | hmem
    · subst heq
      have h1 : p.1 ∈ (if p.1 ∈ cols then cols else cols ++ [p.1]) := by
        by_cases hq : p.1 ∈ cols <;> simp [hq]
      have := mem_insCols_of_mem rest (if p.1 ∈ cols then cols else cols ++ [p.1]) p.1 h1
      simpa [insCols] using this
    · have := ih (if q.1 ∈ cols then cols else cols ++ [q.1]) p hmem
      simpa [insCols] using this

theorem mem_foldl_insCols_of_mem :
    ∀ (rows : List (List (String × String))) (cols : List String) (x : String),
      x ∈ cols → x ∈ rows.foldl insCols cols := by
  intro rows
  induction rows with
  | nil =>
    intro cols x h
    simpa using h
  | cons r rest ih =>
    intro cols x h
    simp only [List.foldl_cons]
    exact ih (insCols cols r) x (mem_insCols_of_mem r cols x h)

theorem mem_foldl_insCols :
    ∀ (rows : List (List (String × String))) (cols : List String)
      (row : List (String × String)) (p : String × String),
      row ∈ rows → p ∈ row → p.1 ∈ rows.foldl insCols cols := by
  intro rows
  induction rows with
  | nil =>
    intro cols row p h
    simp at h
  | cons r rest ih =>
    intro cols row p hrow hp
    rcases List.mem_cons.mp hrow with heq | hmem
    · subst heq
      simp only [List.foldl_cons]
      exact mem_foldl_insCols_of_mem rest (insCols cols row) p.1
        (mem_insCols_self row cols p hp)
    · simp only [List.foldl_cons]
      exact ih (insCols cols r) row p hmem hp

/-- C8: flattening is column-order-stable and rows only use known columns.
For `[{a:1},{b:2}]` the table has columns `["a","b"]` in first-seen order,
row 0 is `{a:"1"}` (no `b`), row 1 is `{b:"2"}` (no `a`); and in general
every key of every flattened row appears in the table's column list (the
first-seen-order union over all rows). -/
theorem createXLSXFile_column_invariant :
    (createXLSXFile [[("a", Value.vNum 1)], [("b", Value.vNum 2)]]
      = (["a", "b"], [[("a", "1")], [("b", "2")]]))
    ∧ ∀ (mediaItems : List (List (String × Value))) (row : List (String × String))
        (p : String × String),
        row ∈ (createXLSXFile mediaItems).2 → p ∈ row →
        p.1 ∈ (createXLSXFile mediaItems).1 := by
  constructor
  · simp [createXLSXFile, flattenRecord, flattenField, startsWithProperty, jsToStr,
      objInsert, columnsOf, insCols]
    constructor <;> rfl
  · intro mediaItems row p hrow hp
    simp only [createXLSXFile, columnsOf] at hrow ⊢
    exact mem_foldl_insCols (mediaItems.map flattenRecord) [] row p hrow hp

/-- C8, witness: the invariant applied to the first flattened row of the
two-record example. -/
theorem createXLSXFile_column_invariant_witness :
    ("a", "1").1 ∈ (createXLSXFile [[("a", Value.vNum 1)], [("b", Value.vNum 2)]]).1 :=
  createXLSXFile_column_invariant.2 [[("a", Value.vNum 1)], [("b", Value.vNum 2)]]
    [("a", "1")] ("a", "1")
    (by rw [createXLSXFile_column_invariant.1]; simp)
    (by simp)

/-! ### C9 — metaproperty/option linkage across the two sheets -/

theorem length_filter_eq_one_of_nodup_map {β γ : Type} [DecidableEq γ] (f : β → γ) :
    ∀ (l : List β) (a : β), a ∈ l → (l.map f).Nodup →
      (l.filter (fun x => f x = f a)).length = 1 := by
  intro l
  induction l with
  | nil =>
    intro a h
    simp at h
  | cons x rest ih =>
    intro a ha hnd
    have hnd1 : f x ∉ rest.map f := by
      simp only [List.map_cons, List.nodup_cons] at hnd
      exact hnd.1
    have hnd2 : (rest.map f).Nodup := by
      simp only [List.map_cons, List.nodup_cons] at hnd
      exact hnd.2
    rcases List.mem_cons.mp ha with heq | hmem
    · subst heq
      have hrest : rest.filter (fun x => f x = f a) = [] := by
        rw [List.filter_eq_nil_iff]
        intro y hy
        simp only [decide_eq_true_eq]
        intro hfy
        exact hnd1 (by
          rw [← hfy]
          exact List.mem_map_of_mem f hy)
      simp [List.filter, hrest]
    · have hne : ¬ (f x = f a) := by
        intro hfx
        exact hnd1 (by
          rw [hfx]
          exact List.mem_map_of_mem f hmem)
      have := ih a hmem hnd2
      simp [List.filter, hne, this]

/-- C9, as amended: if the derived metaproperty IDs (`property.id || key`)
are pairwise distinct across the mapping — true of real Bynder data, where
IDs are unique — then every Options-sheet row's `Metaproperty ID` cell
equals the `ID` cell of exactly one Metaproperties-sheet row.  Without that
distinctness the option row still matches at least one metaproperty row
(its parent's), but possibly several. -/
theorem createMetaPropertiesXLSX_linkage (mps : List (String × Metaprop))
    (hnd : (mps.map derivedId).Nodup) :
    ∀ orow ∈ (createMetaPropertiesXLSX mps).2,
      ((createMetaPropertiesXLSX mps).1.filter
        (fun m => m.id = orow.metapropertyId)).length = 1 := by
  intro orow horow
  simp only [createMetaPropertiesXLSX] at horow ⊢
  rw [List.mem_flatMap] at horow
  obtain ⟨kp, hkp, hor⟩ := horow
  rw [List.mem_map] at hor
  obtain ⟨ko, hko, rfl⟩ := hor
  have hmid : (optionRowOf kp.1 kp.2 ko.1 ko.2).metapropertyId = derivedId kp := rfl
  rw [hmid]
  have hfm : (mps.map (fun kp => metaRowOf kp.1 kp.2)).filter
      (fun m => m.id = derivedId kp)
      = (mps.filter (fun kp' => (metaRowOf kp'.1 kp'.2).id = derivedId kp)).map
        (fun kp => metaRowOf kp.1 kp.2) := by
    rw [List.filter_map]
    rfl
  rw [hfm, List.length_map]
  have hid : ∀ kp' : String × Metaprop, (metaRowOf kp'.1 kp'.2).id = derivedId kp' := by
    intro kp'
    rfl
  have hconv : (mps.filter (fun kp' => (metaRowOf kp'.1 kp'.2).id = derivedId kp))
      = mps.filter (fun kp' => derivedId kp' = derivedId kp) := by
    apply List.filter_congr
    intro x hx
    rw [hid x]
  rw [hconv]
  exact length_filter_eq_one_of_nodup_map derivedId mps kp hkp hnd

/-- A metaproperty with id `"X"` and one option, for the C9 examples. -/
def metapropX : Metaprop :=
  { id := "X", name := "n1", label := "l1", type := "select",
    isMultiselect := false, isRequired := false, isFilterable := false,
    zindex := 1, countTotal := 3,
    options := [("o1", { id := "O", label := "opt", zindex := 1, count := 2 })] }

/-- A second metaproperty with the same id `"X"` and no options. -/
def metapropXDup : Metaprop :=
  { id := "X", name := "n2", label := "l2", type := "select",
    isMultiselect := false, isRequired := false, isFilterable := false,
    zindex := 2, countTotal := 0, options := [] }

/-- C9, counterexample: two metaproperty entries with the same `id` (`"X"`)
produce two Metaproperties-sheet rows whose `ID` cell is `"X"`, and the one
Options-sheet row's `Metaproperty ID` then matches *two* rows, not exactly
one — the claim fails for mappings with duplicated ids. -/
theorem createMetaPropertiesXLSX_duplicate_id_breaks_linkage :
    ((createMetaPropertiesXLSX [("k1", metapropX), ("k2", metapropXDup)]).2.map
      (fun o => o.metapropertyId)) = ["X"]
    ∧ ((createMetaPropertiesXLSX [("k1", metapropX), ("k2", metapropXDup)]).1.filter
        (fun m => m.id = "X")).length = 2
    ∧ (2 : Nat) ≠ 1 := by
  refine ⟨by decide, by decide, by decide⟩

/-- C9, witness for the amended theorem: a mapping with a single
metaproperty (distinct derived ids hold trivially). -/
theorem createMetaPropertiesXLSX_linkage_witness :
    ((createMetaPropertiesXLSX [("k1", metapropX)]).1.filter
      (fun m => m.id = (optionRowOf "k1" metapropX "o1"
        { id := "O", label := "opt", zindex := 1, count := 2 }).metapropertyId)).length = 1 :=
  createMetaPropertiesXLSX_linkage [("k1", metapropX)] (by decide)
    (optionRowOf "k1" metapropX "o1" { id := "O", label := "opt", zindex := 1, count := 2 })
    (by decide)
